import Mathlib

/-!
Verification of `lzero/policy/utils.py` (LightZero policy utilities).

This file gives a shallow embedding of the Python source into Lean and proves
or refutes the frozen specification claims about it.

Modelling conventions, stated once here:
* Machine floats (numpy/torch `float64`/`float32`) are modelled exactly over `ℚ`
  by the type `PyF`, which tracks the IEEE special values `nan`, `inf`, `-inf`
  that the source can produce.  Rounding and overflow are not modelled; no
  theorem below depends on them.  `PyF.unk` abstracts a finite float whose exact
  value is irrational (it arises only from a non-integer power `v ** (1/t)`);
  every operation on `unk` returns `unk` and comparisons on it return `false`.
  No theorem's truth depends on an `unk` path: they occur only in positions the
  corresponding claim existentially quantifies away.
* Python exceptions are modelled by `Except PyError`; a numpy floating-point
  warning (e.g. `0.0 / 0.0`) is NOT an exception and is modelled by a `nan`
  value, exactly as numpy behaves on the `np.ndarray` inputs the source
  annotates.
* Randomness (`np.random.choice`) is modelled by an oracle argument `sample`:
  the model performs numpy's validation of the probability vector and then
  returns the externally drawn index.
-/

/-- Python exception kinds that the embedded code can raise. -/
inductive PyError where
  | zeroDivisionError
  | valueError
  | indexError
  | unboundLocalError
  | assertionError
  | runtimeError
  deriving DecidableEq, Repr

/-- Model of a numpy/torch scalar float: an exact rational, an IEEE special
value, or `unk` for a finite value the rational model does not track exactly
(non-integer powers).  See the module docstring for the `unk` convention. -/
inductive PyF where
  | fin (q : ℚ)
  | inf
  | ninf
  | nan
  | unk
  deriving DecidableEq, Repr

namespace PyF

/-- IEEE-style addition on the float model (Python `+` / `sum`). -/
def add : PyF → PyF → PyF
  | nan, _ => nan
  | _, nan => nan
  | inf, ninf => nan
  | ninf, inf => nan
  | inf, _ => inf
  | _, inf => inf
  | ninf, _ => ninf
  | _, ninf => ninf
  | unk, _ => unk
  | _, unk => unk
  | fin a, fin b => fin (a + b)

/-- IEEE-style negation on the float model. -/
def neg : PyF → PyF
  | fin q => fin (-q)
  | inf => ninf
  | ninf => inf
  | nan => nan
  | unk => unk

/-- IEEE-style subtraction on the float model. -/
def sub (x y : PyF) : PyF := add x (neg y)

/-- IEEE-style absolute value on the float model. -/
def abs : PyF → PyF
  | fin q => fin |q|
  | inf => inf
  | ninf => inf
  | nan => nan
  | unk => unk

/-- IEEE-style division on the float model, for numpy scalars: division by
zero yields `±inf` (or `nan` for `0/0`) with a runtime warning, never an
exception. -/
def div : PyF → PyF → PyF
  | nan, _ => nan
  | _, nan => nan
  | unk, _ => unk
  | _, unk => unk
  | inf, inf => nan
  | inf, ninf => nan
  | ninf, inf => nan
  | ninf, ninf => nan
  | inf, fin b => if b < 0 then ninf else inf
  | ninf, fin b => if b < 0 then inf else ninf
  | fin _, inf => fin 0
  | fin _, ninf => fin 0
  | fin a, fin b =>
      if b = 0 then (if a = 0 then nan else if a > 0 then inf else ninf)
      else fin (a / b)

/-- Strict `<` comparison on the float model; like IEEE, any comparison
involving `nan` is false.  Comparisons involving `unk` are arbitrarily false
(no verified path depends on them). -/
def ltb : PyF → PyF → Bool
  | fin a, fin b => a < b
  | fin _, inf => true
  | ninf, fin _ => true
  | ninf, inf => true
  | _, _ => false

/-- Power `v ** e` of a numpy float by a rational exponent `e` (the source only
ever uses `e = 1/temperature`).  Integer exponents and the IEEE special cases
are exact; a non-integer exponent of a positive base is a positive irrational
in general and is abstracted by `unk`. -/
def pow (v : PyF) (e : ℚ) : PyF :=
  if e = 0 then fin 1
  else
    match v with
    | nan => nan
    | inf => if e > 0 then inf else fin 0
    | ninf => if e > 0 then inf else fin 0
    | unk => unk
    | fin q =>
        if q = 0 then (if e > 0 then fin 0 else inf)
        else if q = 1 then fin 1
        else if e.den = 1 then fin (q ^ e.num)
        else unk

/-- Python's `sum` over a list of numpy floats (fold from `0`). -/
def sum (l : List PyF) : PyF := l.foldl add (fin 0)

end PyF

/-- Maximum value of a nonempty list, written as numpy computes it. -/
def listMax : List ℚ → ℚ
  | [] => 0
  | x :: xs => xs.foldl max x

/-- Model of `numpy.argmax` over a one-dimensional array: the index of the
first occurrence of the maximum value (numpy documents first-occurrence
semantics: the running maximum is replaced only on a strictly greater value).
The source guards the empty case separately (`np.argmax` raises `ValueError`
on an empty array). -/
def numpyArgmax : List ℚ → Nat
  | [] => 0
  | [_] => 0
  | x :: y :: ys => if listMax (y :: ys) ≤ x then 0 else numpyArgmax (y :: ys) + 1

/-- Absolute tolerance numpy's `random.choice` uses when checking that the
probability vector sums to 1: `sqrt(eps(float64)) = 2⁻²⁶` exactly. -/
def npChoiceAtol : ℚ := 1 / 2 ^ 26

/-- Validation `np.random.choice(n, p=probs)` performs on its probability
vector (legacy `numpy.random` generator, which the source uses): every entry
must be non-negative and the sum must be within `npChoiceAtol` of 1.  Note
that, IEEE-style, a `nan` entry passes both checks because every comparison
with `nan` is false. -/
def npChoiceProbsOk (probs : List PyF) : Bool :=
  !(probs.any (fun x => PyF.ltb x (PyF.fin 0))) &&
    !(PyF.ltb (PyF.fin npChoiceAtol) (PyF.abs (PyF.sub (PyF.sum probs) (PyF.fin 1))))

/-- Left-to-right effectful map, modelling a Python list comprehension whose
body can raise: the first exception aborts the whole comprehension. -/
def mapExcept {α β : Type} (f : α → Except PyError β) : List α → Except PyError (List β)
  | [] => .ok []
  | x :: xs =>
      match f x with
      | .error e => .error e
      | .ok y =>
          match mapExcept f xs with
          | .error e => .error e
          | .ok ys => .ok (y :: ys)

/-- One weight `visit_count_i ** (1 / temperature)` of the list comprehension
in `select_action`; Python's `1 / temperature` raises `ZeroDivisionError` when
`temperature` is zero (float division by zero is an exception at Python level,
unlike numpy array division). -/
def powTemp (temperature : ℚ) (v : ℚ) : Except PyError PyF :=
  if temperature = 0 then .error .zeroDivisionError
  else .ok (PyF.pow (PyF.fin v) (1 / temperature))

/-- Embedding of `select_action(visit_counts, temperature, deterministic)`
from `lzero/policy/utils.py`:

    action_probs = [visit_count_i ** (1 / temperature) for visit_count_i in visit_counts]
    action_probs = [x / sum(action_probs) for x in action_probs]
    if deterministic:
        action_pos = np.argmax([v for v in visit_counts])
    else:
        action_pos = np.random.choice(len(visit_counts), p=action_probs)
    visit_count_distribution_entropy = entropy(action_probs, base=2)
    return action_pos, visit_count_distribution_entropy

The model returns the pair `(action_pos, action_probs)`; `action_probs` is the
exact list the source hands to `scipy.stats.entropy(·, base=2)`, so the
returned entropy scalar is a function of that list alone (see
`scipyEntropyBase2` below for its value on finite distributions).  The
`sample` argument is the oracle for the random draw of the stochastic branch. -/
def select_action (visit_counts : List ℚ) (temperature : ℚ) (deterministic : Bool)
    (sample : Nat) : Except PyError (Nat × List PyF) :=
  match mapExcept (powTemp temperature) visit_counts with
  | .error e => .error e
  | .ok ws =>
      let s := PyF.sum ws
      let action_probs := ws.map (fun x => PyF.div x s)
      if deterministic then
        match visit_counts with
        | [] => .error .valueError
        | _ :: _ => .ok (numpyArgmax visit_counts, action_probs)
      else
        if npChoiceProbsOk action_probs then
          .ok (sample % visit_counts.length, action_probs)
        else
          .error .valueError


lemma le_foldl_max_init (xs : List ℚ) : ∀ a : ℚ, a ≤ xs.foldl max a := by
  induction xs with
  | nil => intro a; exact le_refl a
  | cons x xs ih =>
      intro a
      exact le_trans (le_max_left a x) (ih (max a x))

lemma mem_le_foldl_max (xs : List ℚ) : ∀ (a b : ℚ), b ∈ xs → b ≤ xs.foldl max a := by
  induction xs with
  | nil => intro a b hb; cases hb
  | cons x xs ih =>
      intro a b hb
      rcases List.mem_cons.mp hb with h | h
      · subst h
        exact le_trans (le_max_right a b) (le_foldl_max_init xs (max a b))
      · exact ih (max a x) b h

lemma foldl_max_pull (ys : List ℚ) : ∀ a b : ℚ, ys.foldl max (max a b) = max a (ys.foldl max b) := by
  induction ys with
  | nil => intro a b; rfl
  | cons y ys ih =>
      intro a b
      show ys.foldl max (max (max a b) y) = max a (ys.foldl max (max b y))
      rw [max_assoc, ih]

lemma listMax_cons_cons (x y : ℚ) (ys : List ℚ) :
    listMax (x :: y :: ys) = max x (listMax (y :: ys)) := by
  show (y :: ys).foldl max x = max x (ys.foldl max y)
  show ys.foldl max (max x y) = max x (ys.foldl max y)
  exact foldl_max_pull ys x y

lemma le_listMax (l : List ℚ) (b : ℚ) (hb : b ∈ l) : b ≤ listMax l := by
  cases l with
  | nil => cases hb
  | cons x xs =>
      rcases List.mem_cons.mp hb with h | h
      · subst h; exact le_foldl_max_init xs b
      · exact mem_le_foldl_max xs x b h

lemma numpyArgmax_lt_length (l : List ℚ) (h : l ≠ []) : numpyArgmax l < l.length := by
  induction l with
  | nil => exact absurd rfl h
  | cons x xs ih =>
      cases xs with
      | nil => simp [numpyArgmax]
      | cons y ys =>
          rw [numpyArgmax]
          split
          · simp
          · have := ih (by simp)
            simpa [Nat.succ_lt_succ_iff] using this

lemma get_numpyArgmax (l : List ℚ) (h : l ≠ []) :
    l.get ⟨numpyArgmax l, numpyArgmax_lt_length l h⟩ = listMax l := by
  induction l with
  | nil => exact absurd rfl h
  | cons x xs ih =>
      cases xs with
      | nil => rfl
      | cons y ys =>
          rw [listMax_cons_cons]
          by_cases hle : listMax (y :: ys) ≤ x
          · have harg : numpyArgmax (x :: y :: ys) = 0 := by rw [numpyArgmax, if_pos hle]
            rw [max_eq_left hle]
            have : (⟨numpyArgmax (x :: y :: ys), numpyArgmax_lt_length (x :: y :: ys) h⟩ :
                Fin (x :: y :: ys).length) = ⟨0, by simp⟩ := Fin.ext harg
            rw [this]
            rfl
          · have harg : numpyArgmax (x :: y :: ys) = numpyArgmax (y :: ys) + 1 := by
              rw [numpyArgmax, if_neg hle]
            have hx : x < listMax (y :: ys) := lt_of_not_le hle
            rw [max_eq_right (le_of_lt hx)]
            have hlt : numpyArgmax (y :: ys) < (y :: ys).length :=
              numpyArgmax_lt_length (y :: ys) (by simp)
            have : (⟨numpyArgmax (x :: y :: ys), numpyArgmax_lt_length (x :: y :: ys) h⟩ :
                Fin (x :: y :: ys).length) = ⟨numpyArgmax (y :: ys) + 1, by simpa using Nat.succ_lt_succ hlt⟩ :=
              Fin.ext harg
            rw [this]
            exact ih (by simp)

lemma get_lt_of_lt_numpyArgmax (l : List ℚ) (j : Nat) (hj : j < numpyArgmax l)
    (hjl : j < l.length) : l.get ⟨j, hjl⟩ < listMax l := by
  induction l generalizing j with
  | nil => cases hjl
  | cons x xs ih =>
      cases xs with
      | nil =>
          rw [show numpyArgmax [x] = 0 from rfl] at hj
          cases hj
      | cons y ys =>
          by_cases hle : listMax (y :: ys) ≤ x
          · have harg : numpyArgmax (x :: y :: ys) = 0 := by rw [numpyArgmax, if_pos hle]
            rw [harg] at hj
            cases hj
          · have harg : numpyArgmax (x :: y :: ys) = numpyArgmax (y :: ys) + 1 := by
              rw [numpyArgmax, if_neg hle]
            have hx : x < listMax (y :: ys) := lt_of_not_le hle
            rw [listMax_cons_cons, max_eq_right (le_of_lt hx)]
            rw [harg] at hj
            cases j with
            | zero => exact hx
            | succ k =>
                have hk : k < numpyArgmax (y :: ys) := Nat.lt_of_succ_lt_succ hj
                have hkl : k < (y :: ys).length := Nat.lt_of_succ_lt_succ hjl
                exact ih k hk hkl

/-- Index `i` is the position of the first occurrence of the maximum of `l`. -/
def isFirstArgmax (l : List ℚ) (i : Nat) : Prop :=
  ∃ h : i < l.length,
    (∀ j, (hj : j < l.length) → l.get ⟨j, hj⟩ ≤ l.get ⟨i, h⟩) ∧
    (∀ j, (hj : j < i) → l.get ⟨j, Nat.lt_trans hj h⟩ < l.get ⟨i, h⟩)

lemma numpyArgmax_isFirstArgmax (l : List ℚ) (h : l ≠ []) :
    isFirstArgmax l (numpyArgmax l) := by
  refine ⟨numpyArgmax_lt_length l h, ?_, ?_⟩
  · intro j hj
    rw [get_numpyArgmax l h]
    exact le_listMax l _ (List.get_mem l j hj)
  · intro j hj
    rw [get_numpyArgmax l h]
    exact get_lt_of_lt_numpyArgmax l j hj _

lemma mapExcept_powTemp_ok (t : ℚ) (ht : t ≠ 0) (l : List ℚ) :
    mapExcept (powTemp t) l = .ok (l.map (fun v => PyF.pow (PyF.fin v) (1 / t))) := by
  induction l with
  | nil => rfl
  | cons x xs ih => simp [mapExcept, powTemp, ht, ih]

/-- C2: for every non-empty sequence of non-negative visit counts with at
least one positive entry and every positive temperature, `select_action` with
`deterministic=True` succeeds and returns the index of the first occurrence of
the maximum visit count (the probability list it also computes is
existentially quantified: the deterministic branch ignores it). -/
theorem select_action_deterministic_first_argmax
    (visit_counts : List ℚ) (temperature : ℚ) (sample : Nat)
    (hne : visit_counts ≠ [])
    (hnonneg : ∀ v ∈ visit_counts, 0 ≤ v)
    (hpos : ∃ v ∈ visit_counts, 0 < v)
    (ht : 0 < temperature) :
    ∃ (a : Nat) (probs : List PyF),
      select_action visit_counts temperature true sample = .ok (a, probs) ∧
      isFirstArgmax visit_counts a := by
  have ht0 : temperature ≠ 0 := ne_of_gt ht
  refine ⟨numpyArgmax visit_counts, ?_, ?_, numpyArgmax_isFirstArgmax visit_counts hne⟩
  · exact (visit_counts.map (fun v => PyF.pow (PyF.fin v) (1 / temperature))).map
      (fun x => PyF.div x (PyF.sum (visit_counts.map (fun v => PyF.pow (PyF.fin v) (1 / temperature)))))
  · cases visit_counts with
    | nil => exact absurd rfl hne
    | cons x xs =>
        rw [select_action, mapExcept_powTemp_ok temperature ht0]
        rfl

/-- Witness for C2 at the concrete input `visit_counts = [1, 2, 2]`,
`temperature = 2`, `sample = 0`. -/
theorem select_action_deterministic_first_argmax_witness :
    ([1, 2, 2] : List ℚ) ≠ [] ∧ (∀ v ∈ ([1, 2, 2] : List ℚ), 0 ≤ v) ∧
    (∃ v ∈ ([1, 2, 2] : List ℚ), 0 < v) ∧ (0 : ℚ) < 2 ∧
    (∃ (a : Nat) (probs : List PyF),
      select_action [1, 2, 2] 2 true 0 = .ok (a, probs) ∧ isFirstArgmax [1, 2, 2] a) := by
  refine ⟨by simp, by norm_num, ⟨1, by norm_num⟩, by norm_num, ?_⟩
  exact select_action_deterministic_first_argmax [1, 2, 2] 2 0 (by simp)
    (by norm_num) ⟨1, by norm_num⟩ (by norm_num)

/-- C3: on the all-zero visit-count list the code does NOT raise: with
`temperature = 1` and `deterministic = True` it returns action index 0
together with the probability vector `[nan, nan]` (numpy evaluates
`0.0 / 0.0` to `nan` with a runtime warning only), so the entropy diagnostic
`entropy([nan, nan], base=2)` is NaN — there is no `InvalidDistribution`
failure anywhere in the source. -/
theorem select_action_all_zero_counts_silent_nan :
    select_action [0, 0] 1 true 0 = .ok (0, [PyF.nan, PyF.nan]) := by
  norm_num [select_action, mapExcept, powTemp, PyF.pow, PyF.sum, PyF.add, PyF.div, numpyArgmax, listMax]

/-- C5: `select_action` performs no temperature validation.  With
`temperature = -1` it raises nothing and happily returns the argmax with
reciprocal-power weights `[1/1, 1/2]` normalized to `[2/3, 1/3]`; with
`temperature = 0` it raises `ZeroDivisionError` (from the Python-level float
division `1 / temperature`), not any `InvalidArgument` error. -/
theorem select_action_no_temperature_validation :
    select_action [1, 2] (-1) true 0 = .ok (1, [PyF.fin (2/3), PyF.fin (1/3)]) ∧
    select_action [1, 2] 0 true 0 = .error .zeroDivisionError := by
  constructor
  · norm_num [select_action, mapExcept, powTemp, PyF.pow, PyF.sum, PyF.add, PyF.div, numpyArgmax, listMax]
  · norm_num [select_action, mapExcept, powTemp]

/-- The visit counts normalized to a probability distribution (the spec's
phrase); with `temperature = 1` this is exactly the `action_probs` list the
source computes. -/
def normalizeCounts (counts : List ℚ) : List ℚ := counts.map (fun v => v / counts.sum)

/-- Base-2 Shannon entropy of a probability list, following the spec's words
("the base-2 Shannon entropy of the visit counts normalized to a probability
distribution"); the term `x * logb 2 x` is `0` at `x = 0` because
`Real.log 0 = 0`, matching the usual `0 · log 0 = 0` convention. -/
noncomputable def shannonEntropyBase2 (p : List ℚ) : ℝ :=
  -((p.map (fun x : ℚ => (x : ℝ) * Real.logb 2 (x : ℝ))).sum)

/-- Model of `scipy.stats.entropy(pk, base=2)` on a finite (`nan`-free)
probability vector: scipy first normalizes `pk` by its sum, then computes the
natural-log entropy `-Σ p·ln p` (its `entr` kernel is `0` at `0`, matching
`Real.log 0 = 0`), then divides by `ln 2` for the base. -/
noncomputable def scipyEntropyBase2 (pk : List ℚ) : ℝ :=
  -(((pk.map (fun x : ℚ => x / pk.sum)).map
      (fun p : ℚ => (p : ℝ) * Real.log (p : ℝ))).sum) / Real.log 2

lemma sum_map_div {α : Type} [DivisionRing α] (l : List α) (c : α) :
    (l.map (fun x => x / c)).sum = l.sum / c := by
  induction l with
  | nil => simp
  | cons x xs ih => simp [ih, add_div]

lemma normalizeCounts_sum (counts : List ℚ) (h : counts.sum ≠ 0) :
    (normalizeCounts counts).sum = 1 := by
  unfold normalizeCounts
  rw [sum_map_div, div_self h]

lemma scipyEntropy_eq_shannon_of_sum_one (qs : List ℚ) (h : qs.sum = 1) :
    scipyEntropyBase2 qs = shannonEntropyBase2 qs := by
  unfold scipyEntropyBase2 shannonEntropyBase2
  rw [h]
  simp only [div_one, neg_div]
  congr 1
  have hpt : (fun x : ℚ => (x : ℝ) * Real.logb 2 (x : ℝ)) =
      fun x : ℚ => ((x : ℝ) * Real.log (x : ℝ)) / Real.log 2 := by
    funext x
    rw [Real.logb, mul_div_assoc]
  rw [hpt]
  have : (qs.map fun x : ℚ => ((x : ℝ) * Real.log (x : ℝ)) / Real.log 2) =
      (qs.map fun x : ℚ => (x : ℝ) * Real.log (x : ℝ)).map (fun y => y / Real.log 2) := by
    rw [List.map_map]
    rfl
  rw [this, sum_map_div]
  simp

lemma list_sum_pos_of_nonneg_of_exists_pos (l : List ℚ)
    (hnonneg : ∀ v ∈ l, 0 ≤ v) (hpos : ∃ v ∈ l, 0 < v) : 0 < l.sum := by
  induction l with
  | nil => rcases hpos with ⟨v, hv, _⟩; cases hv
  | cons x xs ih =>
      rcases hpos with ⟨v, hv, hvpos⟩
      rcases List.mem_cons.mp hv with h | h
      · have hxpos : 0 < x := h ▸ hvpos
        have hxs : 0 ≤ xs.sum := List.sum_nonneg (fun y hy => hnonneg y (List.mem_cons_of_mem x hy))
        rw [List.sum_cons]
        exact add_pos_of_pos_of_nonneg hxpos hxs
      · have hx : 0 ≤ x := hnonneg x (List.mem_cons_self x xs)
        have := ih (fun y hy => hnonneg y (List.mem_cons_of_mem x hy)) ⟨v, h, hvpos⟩
        rw [List.sum_cons]
        exact add_pos_of_nonneg_of_pos hx this

lemma PyF.pow_exponent_one (v : ℚ) : PyF.pow (PyF.fin v) 1 = PyF.fin v := by
  unfold PyF.pow
  rw [if_neg one_ne_zero]
  by_cases h0 : v = 0
  · simp [h0]
  · by_cases h1 : v = 1
    · simp [h0, h1]
    · simp [h0, h1]

lemma PyF.sum_map_fin (l : List ℚ) : PyF.sum (l.map PyF.fin) = PyF.fin l.sum := by
  have key : ∀ (l : List ℚ) (a : ℚ),
      (l.map PyF.fin).foldl PyF.add (PyF.fin a) = PyF.fin (a + l.sum) := by
    intro l
    induction l with
    | nil => intro a; simp [List.foldl]
    | cons x xs ih =>
        intro a
        show (xs.map PyF.fin).foldl PyF.add (PyF.add (PyF.fin a) (PyF.fin x)) = _
        rw [show PyF.add (PyF.fin a) (PyF.fin x) = PyF.fin (a + x) from rfl, ih]
        rw [List.sum_cons]
        ring_nf
  unfold PyF.sum
  rw [key l 0, zero_add]

/-- With `temperature = 1` the probability list `select_action` computes is
exactly the normalized visit-count distribution (as exact rationals). -/
lemma select_action_temp_one_action_probs (vc : List ℚ) (hS : vc.sum ≠ 0) :
    (vc.map (fun v => PyF.pow (PyF.fin v) (1 / 1))).map
        (fun x => PyF.div x (PyF.sum (vc.map (fun v => PyF.pow (PyF.fin v) (1 / 1))))) =
      (normalizeCounts vc).map PyF.fin := by
  have h1 : (1 : ℚ) / 1 = 1 := by norm_num
  rw [h1]
  have hws : vc.map (fun v => PyF.pow (PyF.fin v) 1) = vc.map PyF.fin := by
    apply List.map_congr_left
    intro v _
    exact PyF.pow_exponent_one v
  rw [hws, PyF.sum_map_fin]
  unfold normalizeCounts
  rw [List.map_map, List.map_map]
  apply List.map_congr_left
  intro v _
  show PyF.div (PyF.fin v) (PyF.fin vc.sum) = PyF.fin (v / vc.sum)
  unfold PyF.div
  simp [hS]

lemma npChoiceProbsOk_of_dist (qs : List ℚ) (hnn : ∀ q ∈ qs, 0 ≤ q) (hsum : qs.sum = 1) :
    npChoiceProbsOk (qs.map PyF.fin) = true := by
  unfold npChoiceProbsOk
  have h1 : (qs.map PyF.fin).any (fun x => PyF.ltb x (PyF.fin 0)) = false := by
    rw [List.any_eq_false]
    intro pf hpf
    rcases List.mem_map.mp hpf with ⟨q, hq, rfl⟩
    show ¬ PyF.ltb (PyF.fin q) (PyF.fin 0) = true
    simp only [PyF.ltb, decide_eq_true_eq, not_lt]
    exact hnn q hq
  have h2 : PyF.sum (qs.map PyF.fin) = PyF.fin 1 := by rw [PyF.sum_map_fin, hsum]
  rw [h1, h2]
  have h3 : PyF.sub (PyF.fin 1) (PyF.fin 1) = PyF.fin 0 := by
    show PyF.add (PyF.fin 1) (PyF.fin (-1)) = PyF.fin 0
    show PyF.fin (1 + -1) = PyF.fin 0
    norm_num
  rw [h3]
  have h4 : PyF.abs (PyF.fin 0) = PyF.fin 0 := by
    show PyF.fin |(0 : ℚ)| = PyF.fin 0
    simp
  rw [h4]
  have h5 : PyF.ltb (PyF.fin npChoiceAtol) (PyF.fin 0) = false := by
    simp only [PyF.ltb, decide_eq_false_iff_not, not_lt]
    unfold npChoiceAtol
    norm_num
  rw [h5]
  rfl

lemma select_action_eval_of_temp_ne_zero (vc : List ℚ) (t : ℚ) (ht : t ≠ 0)
    (det : Bool) (sample : Nat) :
    select_action vc t det sample =
      (let ws := vc.map (fun v => PyF.pow (PyF.fin v) (1 / t))
       let action_probs := ws.map (fun x => PyF.div x (PyF.sum ws))
       if det then
         match vc with
         | [] => .error .valueError
         | _ :: _ => .ok (numpyArgmax vc, action_probs)
       else
         if npChoiceProbsOk action_probs then .ok (sample % vc.length, action_probs)
         else .error .valueError) := by
  rw [select_action, mapExcept_powTemp_ok t ht]

/-- C4: with `temperature = 1` and any valid visit-count list, `select_action`
succeeds in both the deterministic and the stochastic branch and, in both,
computes exactly the normalized visit-count distribution as its `action_probs`
list — the sole input of the returned entropy diagnostic, which is therefore
independent of the branch and of the sampled action — and scipy's base-2
entropy of that list equals the base-2 Shannon entropy of the normalized
visit counts. -/
theorem select_action_entropy_eq_shannon_temp_one
    (visit_counts : List ℚ) (det : Bool) (sample : Nat)
    (hne : visit_counts ≠ [])
    (hnonneg : ∀ v ∈ visit_counts, 0 ≤ v)
    (hpos : ∃ v ∈ visit_counts, 0 < v) :
    (∃ a : Nat, select_action visit_counts 1 det sample =
        .ok (a, (normalizeCounts visit_counts).map PyF.fin)) ∧
      scipyEntropyBase2 (normalizeCounts visit_counts) =
        shannonEntropyBase2 (normalizeCounts visit_counts) := by
  have hSpos := list_sum_pos_of_nonneg_of_exists_pos visit_counts hnonneg hpos
  have hS : visit_counts.sum ≠ 0 := ne_of_gt hSpos
  have hprobs := select_action_temp_one_action_probs visit_counts hS
  have hqnn : ∀ q ∈ normalizeCounts visit_counts, 0 ≤ q := by
    intro q hq
    rcases List.mem_map.mp hq with ⟨v, hv, rfl⟩
    exact div_nonneg (hnonneg v hv) (le_of_lt hSpos)
  constructor
  · rw [select_action_eval_of_temp_ne_zero visit_counts 1 one_ne_zero det sample]
    cases det with
    | true =>
        refine ⟨numpyArgmax visit_counts, ?_⟩
        cases visit_counts with
        | nil => exact absurd rfl hne
        | cons x xs =>
            show Except.ok (numpyArgmax (x :: xs), _) = _
            rw [hprobs]
    | false =>
        refine ⟨sample % visit_counts.length, ?_⟩
        show (if npChoiceProbsOk _ then _ else _) = _
        rw [hprobs, npChoiceProbsOk_of_dist (normalizeCounts visit_counts) hqnn
          (normalizeCounts_sum visit_counts hS)]
        rfl
  · exact scipyEntropy_eq_shannon_of_sum_one _ (normalizeCounts_sum _ hS)

/-- Witness for C4 at `visit_counts = [1, 1]`, stochastic branch,
`sample = 1`. -/
theorem select_action_entropy_eq_shannon_temp_one_witness :
    ([1, 1] : List ℚ) ≠ [] ∧ (∀ v ∈ ([1, 1] : List ℚ), 0 ≤ v) ∧
    (∃ v ∈ ([1, 1] : List ℚ), 0 < v) ∧
    ((∃ a : Nat, select_action [1, 1] 1 false 1 =
        .ok (a, (normalizeCounts [1, 1]).map PyF.fin)) ∧
      scipyEntropyBase2 (normalizeCounts [1, 1]) =
        shannonEntropyBase2 (normalizeCounts [1, 1])) := by
  refine ⟨by simp, by norm_num, ⟨1, by norm_num⟩, ?_⟩
  exact select_action_entropy_eq_shannon_temp_one [1, 1] false 1 (by simp)
    (by norm_num) ⟨1, by norm_num⟩

/-- Numpy/torch dtype tags relevant to the source (everything `.float()`
touches becomes `float32`). -/
inductive DType where
  | float32
  | float64
  | int64
  deriving DecidableEq, Repr

/-- Model of a `numpy.ndarray`: a dtype, a shape, and the element at each
(row-major) multi-index.  Element values are exact rationals (see the module
docstring). -/
structure NpArray where
  dtype : DType
  shape : List Nat
  data : List Nat → ℚ

/-- Model of a `torch.Tensor`: like `NpArray` plus the device it lives on. -/
structure Tensor where
  dtype : DType
  device : String
  shape : List Nat
  data : List Nat → ℚ

/-- `torch.from_numpy(a)`: shares the array's dtype, shape and data; the
resulting tensor lives on the CPU. -/
def torch_from_numpy (a : NpArray) : Tensor :=
  ⟨a.dtype, "cpu", a.shape, a.data⟩

/-- `t.to(device)`: moves the tensor; dtype, shape and data unchanged. -/
def Tensor.toDevice (t : Tensor) (dev : String) : Tensor :=
  { t with device := dev }

/-- `t.float()`: casts the tensor to `float32`.  The cast rounds each element
to `float32` precision; in this exact-rational model the element values are
kept unchanged (exact for values representable in `float32`, which is the
scope of every claim that uses it). -/
def Tensor.toFloat32 (t : Tensor) : Tensor :=
  { t with dtype := .float32 }

/-- `t.detach()`: drops autograd tracking; value-wise the identity. -/
def Tensor.detachT (t : Tensor) : Tensor := t

/-- `t.cpu()`: moves the tensor to the CPU. -/
def Tensor.cpuT (t : Tensor) : Tensor := { t with device := "cpu" }

/-- `t.numpy()`: reinterprets a CPU tensor as a numpy array (same dtype,
shape and data). -/
def Tensor.numpyT (t : Tensor) : NpArray := ⟨t.dtype, t.shape, t.data⟩

/-- Basic slice `t[:, a:b, ...]` on axis 1 with all other axes kept whole:
torch/numpy clamp the bounds to the axis length (`min`), never raising for
out-of-range bounds; `b = none` means an omitted stop (`t[:, a:]`).  Requires
rank at least 2 (the callers check the rank the indexing expression needs). -/
def sliceAxis1 (t : Tensor) (a : Nat) (b : Option Nat) : Tensor :=
  match t.shape with
  | s0 :: s1 :: rest =>
      let lo := min a s1
      let hi := min (b.getD s1) s1
      { dtype := t.dtype, device := t.device, shape := s0 :: (hi - lo) :: rest,
        data := fun idx =>
          match idx with
          | i0 :: i1 :: r => t.data (i0 :: (i1 + lo) :: r)
          | other => t.data other }
  | _ => t

/-- The `cfg.model` sub-record of the configuration `prepare_obs` reads. -/
structure ModelCfg where
  model_type : String
  frame_stack_num : Nat
  image_channel : Nat
  observation_shape : Nat
  self_supervised_learning_loss : Bool

/-- The configuration record handed to `prepare_obs` (`cfg.model`,
`cfg.device`). -/
structure PrepCfg where
  model : ModelCfg
  device : String

/-- Embedding of `prepare_obs(obs_batch_ori, cfg)` from
`lzero/policy/utils.py`:

    obs_target_batch = None
    if cfg.model.model_type == 'conv':
        obs_batch_ori = torch.from_numpy(obs_batch_ori).to(cfg.device).float()
        obs_batch = obs_batch_ori[:, 0:cfg.model.frame_stack_num * cfg.model.image_channel, :, :]
        if cfg.model.self_supervised_learning_loss:
            obs_target_batch = obs_batch_ori[:, cfg.model.image_channel:, :, :]
    elif cfg.model.model_type == 'mlp':
        obs_batch_ori = torch.from_numpy(obs_batch_ori).to(cfg.device).float()
        obs_batch = obs_batch_ori[:, 0:cfg.model.frame_stack_num * cfg.model.observation_shape]
        if cfg.model.self_supervised_learning_loss:
            obs_target_batch = obs_batch_ori[:, cfg.model.observation_shape:]
    return obs_batch, obs_target_batch

Notes traced from the source: there is no reshape or transpose anywhere —
the function only slices axis 1 of whatever array it receives; the `conv`
indexing expression `[:, a:b, :, :]` needs rank ≥ 4 (IndexError otherwise)
and the `mlp` one `[:, a:b]` needs rank ≥ 2; with an unrecognized
`model_type` the final `return obs_batch, ...` hits an unbound local
(`UnboundLocalError`). -/
def prepare_obs (obs_batch_ori : NpArray) (cfg : PrepCfg) :
    Except PyError (Tensor × Option Tensor) :=
  if cfg.model.model_type = "conv" then
    let t := ((torch_from_numpy obs_batch_ori).toDevice cfg.device).toFloat32
    if t.shape.length < 4 then .error .indexError
    else
      let obs_batch := sliceAxis1 t 0 (some (cfg.model.frame_stack_num * cfg.model.image_channel))
      let obs_target_batch :=
        if cfg.model.self_supervised_learning_loss then
          some (sliceAxis1 t cfg.model.image_channel none)
        else none
      .ok (obs_batch, obs_target_batch)
  else if cfg.model.model_type = "mlp" then
    let t := ((torch_from_numpy obs_batch_ori).toDevice cfg.device).toFloat32
    if t.shape.length < 2 then .error .indexError
    else
      let obs_batch := sliceAxis1 t 0 (some (cfg.model.frame_stack_num * cfg.model.observation_shape))
      let obs_target_batch :=
        if cfg.model.self_supervised_learning_loss then
          some (sliceAxis1 t cfg.model.observation_shape none)
        else none
      .ok (obs_batch, obs_target_batch)
  else .error .unboundLocalError

/-- Configuration exercised by the image-mode claims: `conv` model type,
`frame_stack_num = 4`, `image_channel = 3`, consistency loss enabled. -/
def convCfgSSL : PrepCfg := ⟨⟨"conv", 4, 3, 1, true⟩, "cpu"⟩

/-- A raw 5-D image batch of shape `(B, T, H, W, C) = (1, 9, 96, 96, 3)` — the
shape the claim says `prepare_obs` receives and transposes. -/
def rawImageBatch5D : NpArray := ⟨.float32, [1, 9, 96, 96, 3], fun _ => 0⟩

/-- C1 (counterexample): on an actual 5-D input of shape `(1, 9, 96, 96, 3)`
`prepare_obs` performs no reinterpretation or transpose at all — the slice
`[:, 0:12, :, :]` just clamps to the 9 entries of axis 1 — so the current
batch comes back with shape `(1, 9, 96, 96, 3)` and the target batch with
shape `(1, 6, 96, 96, 3)`, not the claimed `(1, 12, 96, 96)` and
`(1, 24, 96, 96)`. -/
theorem prepare_obs_image_mode_counterexample :
    (prepare_obs rawImageBatch5D convCfgSSL).map
        (fun p => (p.1.shape, p.2.map Tensor.shape)) =
      .ok ([1, 9, 96, 96, 3], some [1, 6, 96, 96, 3]) ∧
    ([1, 9, 96, 96, 3] : List Nat) ≠ [1, 12, 96, 96] :=
  ⟨rfl, by decide⟩

/-- C1 (amended): in image mode `prepare_obs` expects its input already
flattened to `(B, T·C, H, W)` (the transpose happens upstream of this
function); it then returns as `current_batch` the first
`frame_stack_num · image_channel` channels and, with the consistency loss
enabled, as `target_batch` all channels from index `image_channel` on.  With
`frame_stack_num = 4`, `image_channel = 3` and input shape `(B, 27, H, W)`
the current batch has shape `(B, 12, H, W)` and the target batch
`(B, 24, H, W)`, and the data is the corresponding channel window of the
input. -/
theorem prepare_obs_image_mode_slicing
    (B H W : Nat) (x : NpArray) (hshape : x.shape = [B, 27, H, W]) :
    ∃ cur tgt : Tensor,
      prepare_obs x convCfgSSL = .ok (cur, some tgt) ∧
      cur.shape = [B, 12, H, W] ∧
      tgt.shape = [B, 24, H, W] ∧
      (∀ i c h w : Nat, cur.data [i, c, h, w] = x.data [i, c, h, w]) ∧
      (∀ i c h w : Nat, tgt.data [i, c, h, w] = x.data [i, c + 3, h, w]) := by
  have hts : (((torch_from_numpy x).toDevice convCfgSSL.device).toFloat32).shape
      = [B, 27, H, W] := hshape
  refine ⟨sliceAxis1 (((torch_from_numpy x).toDevice convCfgSSL.device).toFloat32) 0 (some 12),
    sliceAxis1 (((torch_from_numpy x).toDevice convCfgSSL.device).toFloat32) 3 none, ?_, ?_, ?_, ?_, ?_⟩
  · show (if ("conv" : String) = "conv" then _ else _) = _
    rw [if_pos rfl]
    simp only [hts, List.length_cons, List.length_nil]
    norm_num
    exact ⟨rfl, rfl, rfl⟩
  · unfold sliceAxis1
    rw [hts]
    rfl
  · unfold sliceAxis1
    rw [hts]
    rfl
  · intro i c h w
    unfold sliceAxis1
    rw [hts]
    rfl
  · intro i c h w
    unfold sliceAxis1
    rw [hts]
    rfl

/-- Concrete flattened image batch (shape `(2, 27, 1, 1)`, element = sum of
its index) for the C1 witness. -/
def flatImageBatch : NpArray := ⟨.float32, [2, 27, 1, 1], fun idx => (idx.sum : ℚ)⟩

/-- Witness for C1 (amended) at the concrete input `flatImageBatch`. -/
theorem prepare_obs_image_mode_slicing_witness :
    flatImageBatch.shape = [2, 27, 1, 1] ∧
    (∃ cur tgt : Tensor,
      prepare_obs flatImageBatch convCfgSSL = .ok (cur, some tgt) ∧
      cur.shape = [2, 12, 1, 1] ∧
      tgt.shape = [2, 24, 1, 1] ∧
      (∀ i c h w : Nat, cur.data [i, c, h, w] = flatImageBatch.data [i, c, h, w]) ∧
      (∀ i c h w : Nat, tgt.data [i, c, h, w] = flatImageBatch.data [i, c + 3, h, w])) :=
  ⟨rfl, prepare_obs_image_mode_slicing 2 1 1 flatImageBatch rfl⟩

/-- Configuration for C6: `conv` mode, `frame_stack_num = 4`,
`image_channel = 3`, consistency loss off. -/
def convCfgNoSSL : PrepCfg := ⟨⟨"conv", 4, 3, 1, false⟩, "cpu"⟩

/-- A flattened image batch whose stacked axis (length 2) is smaller than
`frame_stack_num * image_channel = 12`. -/
def shortStackBatch : NpArray := ⟨.float32, [1, 2, 1, 1], fun _ => 0⟩

/-- C6: when the stacked axis is shorter than
`frame_stack_num * image_channel`, `prepare_obs` raises nothing — torch basic
slicing clamps the out-of-range stop index, so the call silently returns a
truncated current batch of shape `(1, 2, 1, 1)` (and no target batch); there
is no `ShapeMismatch` check anywhere in the source. -/
theorem prepare_obs_short_axis_silent_clamp :
    (prepare_obs shortStackBatch convCfgNoSSL).map (fun p => (p.1.shape, p.2.isSome)) =
      .ok ([1, 2, 1, 1], false) := rfl

/-- C10: the current batch `prepare_obs` returns is identical whether the
consistency-loss flag is on or off, for every input array and every
configuration (the flag only decides whether a target batch is produced);
the two runs also fail identically when they fail. -/
theorem prepare_obs_current_batch_ssl_invariant
    (mt : String) (fsn ch os : Nat) (dev : String) (x : NpArray) :
    (prepare_obs x ⟨⟨mt, fsn, ch, os, true⟩, dev⟩).map Prod.fst =
      (prepare_obs x ⟨⟨mt, fsn, ch, os, false⟩, dev⟩).map Prod.fst := by
  unfold prepare_obs
  by_cases h1 : mt = "conv"
  · by_cases hlen : (((torch_from_numpy x).toDevice dev).toFloat32).shape.length < 4
    · simp [h1, hlen]
    · simp [h1, hlen, Except.map]
  · by_cases h2 : mt = "mlp"
    · by_cases hlen : (((torch_from_numpy x).toDevice dev).toFloat32).shape.length < 2
      · simp [h1, h2, hlen]
      · simp [h1, h2, hlen, Except.map]
    · simp [h1, h2]

/-- Embedding of `to_torch_float_tensor(data_list, device)` from
`lzero/policy/utils.py`: each host array is converted by
`torch.from_numpy(data).to(device).float()`. -/
def to_torch_float_tensor (data_list : List NpArray) (device : String) : List Tensor :=
  data_list.map (fun data => ((torch_from_numpy data).toDevice device).toFloat32)

/-- Embedding of `to_detach_cpu_numpy(data_list)` from
`lzero/policy/utils.py`: each tensor goes through
`data.detach().cpu().numpy()`. -/
def to_detach_cpu_numpy (data_list : List Tensor) : List NpArray :=
  data_list.map (fun data => data.detachT.cpuT.numpyT)

/-- C7: the round trip `to_detach_cpu_numpy (to_torch_float_tensor xs device)`
returns, for every list of host arrays and every device, arrays with the
original shape and data unchanged element-for-element; the one transformation
is the dtype, which `.float()` sets to `float32` (in this exact-value model
the cast is the identity on the data, i.e. exact for inputs representable in
`float32` — the claim's "modulo dtype widening" caveat). -/
theorem to_detach_cpu_numpy_roundtrip (xs : List NpArray) (device : String) :
    to_detach_cpu_numpy (to_torch_float_tensor xs device) =
      xs.map (fun a => ⟨.float32, a.shape, a.data⟩) := by
  unfold to_torch_float_tensor to_detach_cpu_numpy
  rw [List.map_map]
  rfl

/-- Row-wise `F.normalize(x, p=2., dim=-1, eps=1e-5)`: each row is divided by
`max(‖row‖₂, 1e-5)` (torch clamps the norm from below by `eps`). -/
noncomputable def l2NormalizeRow (row : List ℚ) : List ℝ :=
  row.map (fun v : ℚ => (v : ℝ) /
    max (Real.sqrt ((row.map (fun w : ℚ => (w : ℝ) ^ 2)).sum)) ((1 : ℝ) / 100000))

/-- Entry `(i, j)` of a rank-2 value matrix (out-of-range reads return `0`;
they are never exercised in range-checked positions). -/
def matEntry (m : List (List ℝ)) (i j : Nat) : ℝ := (m.getD i []).getD j 0

/-- Torch broadcast compatibility of one dimension pair: the sizes must be
equal or one of them must be `1`; otherwise the elementwise operation raises
a `RuntimeError`. -/
def broadcastOK (a c : Nat) : Bool := a == c || a == 1 || c == 1

/-- Embedding of `negative_cosine_similarity(x1, x2)` from
`lzero/policy/utils.py`:

    x1 = F.normalize(x1, p=2., dim=-1, eps=1e-5)
    x2 = F.normalize(x2, p=2., dim=-1, eps=1e-5)
    return -(x1 * x2).sum(dim=1)

for rank-2 inputs (a matrix is a list of equal-length rows; the length of the
head row is the second dimension).  `F.normalize` preserves the shape, so the
broadcast check of the elementwise product `x1 * x2` reads the input shapes:
each of the two dimensions must be broadcast-compatible, otherwise torch
raises a `RuntimeError` (its shape-mismatch error); the product uses the
broadcast sizes, `sum(dim=1)` reduces each row, and the result is negated. -/
noncomputable def negative_cosine_similarity (x1 x2 : List (List ℚ)) :
    Except PyError (List ℝ) :=
  if broadcastOK x1.length x2.length &&
      broadcastOK (x1.headD []).length (x2.headD []).length then
    .ok ((List.range (max x1.length x2.length)).map (fun i =>
      -(((List.range (max (x1.headD []).length (x2.headD []).length)).map (fun j =>
        matEntry (x1.map l2NormalizeRow) (if x1.length = 1 then 0 else i)
            (if (x1.headD []).length = 1 then 0 else j) *
        matEntry (x2.map l2NormalizeRow) (if x2.length = 1 then 0 else i)
            (if (x2.headD []).length = 1 then 0 else j))).sum)))
  else .error .runtimeError

lemma l2NormalizeRow_length (row : List ℚ) : (l2NormalizeRow row).length = row.length := by
  unfold l2NormalizeRow
  rw [List.length_map]

/-- C9: `negative_cosine_similarity` is a pure function of its two inputs
(the embedding is a Lean function, and the source body is three side-effect
free tensor expressions); on two inputs of equal shape `(B, D)` it succeeds
and returns one scalar per batch row, and the only error it can ever raise is
torch's shape-mismatch `RuntimeError` for non-broadcastable input shapes. -/
theorem negative_cosine_similarity_total_on_equal_shapes
    (x1 x2 : List (List ℚ)) (B D : Nat)
    (hx1 : x1.length = B) (hx2 : x2.length = B)
    (hr1 : ∀ r ∈ x1, r.length = D) (hr2 : ∀ r ∈ x2, r.length = D) :
    (∃ l : List ℝ, negative_cosine_similarity x1 x2 = .ok l ∧ l.length = B) ∧
    (∀ e, negative_cosine_similarity x1 x2 = .error e → e = .runtimeError) := by
  constructor
  · have hble : broadcastOK x1.length x2.length = true := by
      unfold broadcastOK
      simp [hx1, hx2]
    have hbd : broadcastOK (x1.headD []).length (x2.headD []).length = true := by
      unfold broadcastOK
      cases x1 with
      | nil =>
          have hB : B = 0 := by simpa using hx1.symm
          have hx2nil : x2 = [] := by
            subst hB
            exact List.length_eq_zero.mp hx2
          subst hx2nil
          simp
      | cons r1 t1 =>
          cases x2 with
          | nil =>
              exfalso
              rw [← hx1] at hx2
              simp at hx2
          | cons r2 t2 =>
              have hd1 : r1.length = D := hr1 r1 (List.mem_cons_self r1 t1)
              have hd2 : r2.length = D := hr2 r2 (List.mem_cons_self r2 t2)
              show ((r1.length == r2.length) || _ || _) = true
              simp [hd1, hd2]
    unfold negative_cosine_similarity
    rw [hble, hbd]
    refine ⟨_, rfl, ?_⟩
    rw [List.length_map, List.length_range, hx1, hx2, max_self]
  · intro e he
    unfold negative_cosine_similarity at he
    by_cases hc : (broadcastOK x1.length x2.length &&
        broadcastOK (x1.headD []).length (x2.headD []).length) = true
    · rw [if_pos hc] at he
      cases he
    · rw [if_neg hc] at he
      exact ((Except.error.injEq _ _).mp he).symm

theorem negative_cosine_similarity_total_on_equal_shapes_witness :
    ([[3, 4]] : List (List ℚ)).length = 1 ∧ (∀ r ∈ ([[3, 4]] : List (List ℚ)), r.length = 2) ∧
    (∃ l : List ℝ, negative_cosine_similarity [[3, 4]] [[3, 4]] = .ok l ∧ l.length = 1) ∧
    (∀ e, negative_cosine_similarity [[3, 4]] [[3, 4]] = .error e → e = .runtimeError) := by
  refine ⟨rfl, by simp, ?_⟩
  exact negative_cosine_similarity_total_on_equal_shapes [[3, 4]] [[3, 4]] 1 2
    rfl rfl (by simp) (by simp)

/-- The torch module classes `configure_optimizers` tests membership of:
whitelist `(nn.Linear, nn.LSTM, nn.Conv2d)`, blacklist
`(nn.LayerNorm, LayerNorm, nn.Embedding, nn.BatchNorm1d, nn.BatchNorm2d)`
(the file-local `LayerNorm` is a distinct class), plus every other module
kind (containers, unlisted layer types, ...). -/
inductive NNModuleKind where
  | linear
  | lstm
  | conv2d
  | layerNorm
  | layerNormCustom
  | embedding
  | batchNorm1d
  | batchNorm2d
  | container
  | other
  deriving DecidableEq, Repr

/-- `isinstance(m, whitelist_weight_modules)`. -/
def isWhitelist : NNModuleKind → Bool
  | .linear => true
  | .lstm => true
  | .conv2d => true
  | _ => false

/-- `isinstance(m, blacklist_weight_modules)`. -/
def isBlacklist : NNModuleKind → Bool
  | .layerNorm => true
  | .layerNormCustom => true
  | .embedding => true
  | .batchNorm1d => true
  | .batchNorm2d => true
  | _ => false

/-- Python's `str.endswith`, computed on the character lists of the two
strings. -/
def strEndsWith (s suf : String) : Bool := List.isSuffixOf suf.data s.data

mutual

/-- Model of a `torch.nn.Module` tree: its class kind, its directly owned
parameter names, and its named child modules in registration order (no
parameter sharing, matching the models the claims quantify over). -/
inductive NNModule where
  | mk (kind : NNModuleKind) (params : List String) (children : NNModuleList)

/-- A registration-ordered list of named child modules. -/
inductive NNModuleList where
  | nil
  | cons (name : String) (m : NNModule) (rest : NNModuleList)

end

/-- The class kind of a module. -/
def NNModule.kind : NNModule → NNModuleKind
  | .mk k _ _ => k

/-- Dotted-name concatenation used by torch for nested names
(an empty prefix contributes no dot). -/
def dotJoin (pre n : String) : String :=
  if pre = "" then n else pre ++ "." ++ n

mutual

/-- `m.named_parameters()`: all parameter names of the subtree rooted at `m`,
relative to `m`, children prefixed by their registration name. -/
def NNModule.namedParams : NNModule → List String
  | .mk _ ps cs => ps ++ NNModuleList.namedParams cs

/-- Helper of `NNModule.namedParams` over the child list. -/
def NNModuleList.namedParams : NNModuleList → List String
  | .nil => []
  | .cons n m rest =>
      (NNModule.namedParams m).map (fun p => n ++ "." ++ p) ++ NNModuleList.namedParams rest

end

mutual

/-- `model.named_modules()` with name prefix `pre`: the module itself
followed by all descendants, each paired with its dotted name. -/
def NNModule.namedModules : String → NNModule → List (String × NNModule)
  | pre, .mk k ps cs => (pre, .mk k ps cs) :: NNModuleList.namedModules pre cs

/-- Helper of `NNModule.namedModules` over the child list. -/
def NNModuleList.namedModules : String → NNModuleList → List (String × NNModule)
  | _, .nil => []
  | pre, .cons n m rest =>
      NNModule.namedModules (dotJoin pre n) m ++ NNModuleList.namedModules pre rest

end

/-- Python `set.add`: appends only if absent (the model's iteration order is
insertion order; the theorems below only use membership and the assert
outcomes, which are order-independent). -/
def setAdd (s : List String) (x : String) : List String :=
  if x ∈ s then s else s ++ [x]

/-- One step of the classification double loop of `configure_optimizers`:
given the buckets `(decay, no_decay)`, the kind of the enclosing module and
one of its (relative) parameter names `pn` with full name `fpn`, add `fpn`
to the bucket the source's branch ladder selects:

    if pn.endswith('bias') or pn.endswith('lstm.bias_ih_l0') or pn.endswith('lstm.bias_hh_l0'):
        no_decay.add(fpn)
    elif pn.endswith('weight') and isinstance(m, whitelist_weight_modules):
        decay.add(fpn)
    elif (pn.endswith('weight_ih_l0') or pn.endswith('weight_hh_l0')) and isinstance(m, whitelist_weight_modules):
        decay.add(fpn)
    elif pn.endswith('weight') and isinstance(m, blacklist_weight_modules):
        no_decay.add(fpn)
-/
def classifyStep (acc : List String × List String) (mkind : NNModuleKind)
    (pn fpn : String) : List String × List String :=
  if strEndsWith pn "bias" || strEndsWith pn "lstm.bias_ih_l0" ||
      strEndsWith pn "lstm.bias_hh_l0" then
    (acc.1, setAdd acc.2 fpn)
  else if strEndsWith pn "weight" && isWhitelist mkind then
    (setAdd acc.1 fpn, acc.2)
  else if (strEndsWith pn "weight_ih_l0" || strEndsWith pn "weight_hh_l0") &&
      isWhitelist mkind then
    (setAdd acc.1 fpn, acc.2)
  else if strEndsWith pn "weight" && isBlacklist mkind then
    (acc.1, setAdd acc.2 fpn)
  else acc

/-- The classification double loop of `configure_optimizers`:

    for mn, m in model.named_modules():
        for pn, p in m.named_parameters():
            fpn = '%s.%s' % (mn, pn) if mn else pn
            ...
-/
def classifyParams (model : NNModule) : List String × List String :=
  (NNModule.namedModules "" model).foldl
    (fun acc mm =>
      (NNModule.namedParams mm.2).foldl
        (fun acc2 pn => classifyStep acc2 mm.2.kind pn (dotJoin mm.1 pn)) acc)
    ([], [])

/-- Embedding of `configure_optimizers(model, ...)` from
`lzero/policy/utils.py`, up to the partition validation: classify every
(module, parameter) pair, remove the tied `'lm_head.weight'` from the decay
set if present (the `try/except KeyError` just logs when it is absent), then

    assert len(inter_params) == 0
    assert len(param_dict.keys() - union_params) == 0

modelled as `Except`: an `assertionError` when the two buckets intersect or
when some parameter name landed in neither; otherwise the pair
`(decay, no_decay)` from which the source builds its two AdamW parameter
groups (optimizer construction itself is outside this file's claims). -/
def configure_optimizers (model : NNModule) : Except PyError (List String × List String) :=
  let dn := classifyParams model
  let decay := dn.1.erase "lm_head.weight"
  let no_decay := dn.2
  if (decay.filter (fun p => no_decay.contains p)).length ≠ 0 then
    .error .assertionError
  else if ((NNModule.namedParams model).filter
      (fun p => !(decay.contains p || no_decay.contains p))).length ≠ 0 then
    .error .assertionError
  else
    .ok (decay, no_decay)

/-- The two-layer model of claim C8: a container holding one `nn.Linear`
(weight and bias) and one `nn.LayerNorm` (weight and bias). -/
def linLayerNormModel : NNModule :=
  .mk .container []
    (.cons "lin" (.mk .linear ["weight", "bias"] .nil)
      (.cons "ln" (.mk .layerNorm ["weight", "bias"] .nil) .nil))


/-- A model whose `nn.LSTM` is registered under the attribute name `rnn`
(instead of `lstm`), with the four parameter names torch gives an LSTM. -/
def rnnLstmModel : NNModule :=
  .mk .container []
    (.cons "rnn"
      (.mk .lstm ["weight_ih_l0", "weight_hh_l0", "bias_ih_l0", "bias_hh_l0"] .nil) .nil)

/-- C8 (counterexample): the partition asserts do NOT hold for every model
topology.  In `rnnLstmModel` the recurrent biases `rnn.bias_ih_l0` and
`rnn.bias_hh_l0` match none of the classification patterns — the bias branch
only recognizes the suffixes `bias`, `lstm.bias_ih_l0` and `lstm.bias_hh_l0`,
which hard-code the attribute name `lstm` — so they land in neither bucket
and `configure_optimizers` dies on its second assert. -/
theorem configure_optimizers_assert_fires_counterexample :
    configure_optimizers rnnLstmModel = .error .assertionError := rfl

/-- C8 (amended): for the concrete model with one `nn.Linear` and one
`nn.LayerNorm` layer, the Linear weight lands in the decay bucket, the
LayerNorm weight and both biases land in the no-decay bucket, their union
covers every parameter, their intersection is empty, and both partition
asserts pass (the universal "for every model topology" part of the claim is
false, see the counterexample). -/
theorem configure_optimizers_linear_layernorm_partition :
    ∃ d nd : List String, configure_optimizers linLayerNormModel = .ok (d, nd) ∧
      d = ["lin.weight"] ∧ nd = ["lin.bias", "ln.bias", "ln.weight"] ∧
      (∀ p ∈ NNModule.namedParams linLayerNormModel, p ∈ d ∨ p ∈ nd) ∧
      (∀ p ∈ d, p ∉ nd) := by
  refine ⟨["lin.weight"], ["lin.bias", "ln.bias", "ln.weight"], rfl, rfl, rfl, ?_, ?_⟩
  · decide
  · decide
